import Mathlib

set_option maxRecDepth 20000
set_option maxHeartbeats 1000000

namespace SparkUI

/-!  # Verification of the Spark UI designer core

Shallow embedding of the core of `src/index.tsx` and `src/unnamed/part_000`:
the incremental brace-matching JSON stream extractor (`parseJsonStream`),
the undo/redo history (`pushToHistory`, `handleUndo`, `handleRedo`),
the session/artifact state machine (`handleSendMessage`, `generateArtifact`,
`applyVariation`, `handleGenerateImages`), style-name coercion, and `wrapHtml`.
-/

/-- JSON values as produced by the host `JSON.parse`.  Numbers are kept as
their raw lexeme text: no claim verified here depends on numeric value
semantics, only on deterministic structural equality of parses of equal
text. -/
inductive Json where
  | null : Json
  | bool (b : Bool) : Json
  | num (lexeme : String) : Json
  | str (s : String) : Json
  | arr (elems : List Json) : Json
  | obj (fields : List (String × Json)) : Json

/-- JSON whitespace characters. -/
def isJsonWs (c : Char) : Bool := c = ' ' || c = '\t' || c = '\n' || c = '\r'

/-- Drop leading JSON whitespace. -/
def skipWs : List Char → List Char
  | [] => []
  | c :: r => if isJsonWs c then skipWs r else c :: r

/-- Value of a hexadecimal digit, if `c` is one. -/
def hexDigit (c : Char) : Option Nat :=
  if '0' ≤ c ∧ c ≤ '9' then some (c.toNat - '0'.toNat)
  else if 'a' ≤ c ∧ c ≤ 'f' then some (c.toNat - 'a'.toNat + 10)
  else if 'A' ≤ c ∧ c ≤ 'F' then some (c.toNat - 'A'.toNat + 10)
  else none

/-- Single-character JSON string escapes. -/
def escChar : Char → Option Char
  | '"' => some '"'
  | '\\' => some '\\'
  | '/' => some '/'
  | 'b' => some (Char.ofNat 8)
  | 'f' => some (Char.ofNat 12)
  | 'n' => some '\n'
  | 'r' => some '\r'
  | 't' => some '\t'
  | _ => none

/-- Parse the body of a JSON string (the opening quote already consumed),
returning the decoded characters and the input after the closing quote. -/
def parseStringBody : List Char → Option (List Char × List Char)
  | [] => none
  | '"' :: rest => some ([], rest)
  | '\\' :: 'u' :: h1 :: h2 :: h3 :: h4 :: rest =>
    match hexDigit h1, hexDigit h2, hexDigit h3, hexDigit h4 with
    | some a, some b, some c, some d =>
      (parseStringBody rest).map
        (fun p => (Char.ofNat (((a * 16 + b) * 16 + c) * 16 + d) :: p.1, p.2))
    | _, _, _, _ => none
  | '\\' :: e :: rest =>
    match escChar e with
    | some c => (parseStringBody rest).map (fun p => (c :: p.1, p.2))
    | none => none
  | c :: rest =>
    if c.toNat < 32 then none
    else (parseStringBody rest).map (fun p => (c :: p.1, p.2))

/-- Decimal digit test. -/
def isDig (c : Char) : Bool := '0' ≤ c && c ≤ '9'

/-- Split off the maximal leading run of decimal digits. -/
def spanDigits : List Char → List Char × List Char
  | [] => ([], [])
  | c :: r =>
    if isDig c then
      let p := spanDigits r
      (c :: p.1, p.2)
    else ([], c :: r)

/-- Integer part of a JSON number: `0`, or a nonzero digit followed by digits. -/
def parseIntPart : List Char → Option (List Char × List Char)
  | [] => none
  | c :: r =>
    if c = '0' then some ([c], r)
    else if isDig c then
      let p := spanDigits r
      some (c :: p.1, p.2)
    else none

/-- Optional fractional part of a JSON number. -/
def parseFracPart : List Char → Option (List Char × List Char)
  | '.' :: r =>
    match spanDigits r with
    | ([], _) => none
    | (ds, rest) => some ('.' :: ds, rest)
  | l => some ([], l)

/-- Optional exponent part of a JSON number. -/
def parseExpPart : List Char → Option (List Char × List Char)
  | [] => some ([], [])
  | c :: r =>
    if c = 'e' ∨ c = 'E' then
      match r with
      | [] => none
      | s :: r2 =>
        if s = '+' ∨ s = '-' then
          match spanDigits r2 with
          | ([], _) => none
          | (ds, rest) => some (c :: s :: ds, rest)
        else
          match spanDigits r with
          | ([], _) => none
          | (ds, rest) => some (c :: ds, rest)
    else some ([], c :: r)

/-- Lexeme of a JSON number at the head of the input. -/
def parseNumLex (l : List Char) : Option (List Char × List Char) :=
  match l with
  | [] => none
  | c :: r =>
    let sb : List Char × List Char := if c = '-' then ([c], r) else ([], c :: r)
    match parseIntPart sb.2 with
    | none => none
    | some (ip, r1) =>
      match parseFracPart r1 with
      | none => none
      | some (fp, r2) =>
        match parseExpPart r2 with
        | none => none
        | some (ep, rest) => some (sb.1 ++ ip ++ fp ++ ep, rest)

mutual

/-- Fuel-indexed recursive-descent JSON value reader (models `JSON.parse`). -/
def parseValueAux : Nat → List Char → Option (Json × List Char)
  | 0, _ => none
  | fuel + 1, input =>
    match skipWs input with
    | [] => none
    | '"' :: r => (parseStringBody r).map (fun p => (Json.str (String.mk p.1), p.2))
    | '{' :: r => (parseMembersAux fuel r).map (fun p => (Json.obj p.1, p.2))
    | '[' :: r => (parseElemsAux fuel r).map (fun p => (Json.arr p.1, p.2))
    | 't' :: 'r' :: 'u' :: 'e' :: r => some (Json.bool true, r)
    | 'f' :: 'a' :: 'l' :: 's' :: 'e' :: r => some (Json.bool false, r)
    | 'n' :: 'u' :: 'l' :: 'l' :: r => some (Json.null, r)
    | l => (parseNumLex l).map (fun p => (Json.num (String.mk p.1), p.2))

/-- Array elements, input positioned just after `[`. -/
def parseElemsAux : Nat → List Char → Option (List Json × List Char)
  | 0, _ => none
  | fuel + 1, input =>
    match skipWs input with
    | ']' :: rest => some ([], rest)
    | l =>
      match parseValueAux fuel l with
      | none => none
      | some (v, r1) =>
        match parseElemsTailAux fuel r1 with
        | none => none
        | some (vs, rest) => some (v :: vs, rest)

/-- Remaining array elements after the first, expecting `,` or `]`. -/
def parseElemsTailAux : Nat → List Char → Option (List Json × List Char)
  | 0, _ => none
  | fuel + 1, input =>
    match skipWs input with
    | ']' :: rest => some ([], rest)
    | ',' :: r =>
      match parseValueAux fuel r with
      | none => none
      | some (v, r1) =>
        match parseElemsTailAux fuel r1 with
        | none => none
        | some (vs, rest) => some (v :: vs, rest)
    | _ => none

/-- Object members, input positioned just after the opening brace. -/
def parseMembersAux : Nat → List Char → Option (List (String × Json) × List Char)
  | 0, _ => none
  | fuel + 1, input =>
    match skipWs input with
    | '}' :: rest => some ([], rest)
    | '"' :: r =>
      match parseStringBody r with
      | none => none
      | some (key, r1) =>
        match skipWs r1 with
        | ':' :: r2 =>
          match parseValueAux fuel r2 with
          | none => none
          | some (v, r3) =>
            match parseMembersTailAux fuel r3 with
            | none => none
            | some (fs, rest) => some ((String.mk key, v) :: fs, rest)
        | _ => none
    | _ => none

/-- Remaining object members after the first, expecting `,` or a closing brace. -/
def parseMembersTailAux : Nat → List Char → Option (List (String × Json) × List Char)
  | 0, _ => none
  | fuel + 1, input =>
    match skipWs input with
    | '}' :: rest => some ([], rest)
    | ',' :: r =>
      match skipWs r with
      | '"' :: r1 =>
        match parseStringBody r1 with
        | none => none
        | some (key, r2) =>
          match skipWs r2 with
          | ':' :: r3 =>
            match parseValueAux fuel r3 with
            | none => none
            | some (v, r4) =>
              match parseMembersTailAux fuel r4 with
              | none => none
              | some (fs, rest) => some ((String.mk key, v) :: fs, rest)
          | _ => none
      | _ => none
    | _ => none

end

/-- `JSON.parse` on a character list: one value, then only trailing whitespace.
The fuel `2 * length + 4` dominates the depth of any parse of the input. -/
def parseJsonChars (l : List Char) : Option Json :=
  match parseValueAux (2 * l.length + 4) l with
  | none => none
  | some (v, rest) => if (skipWs rest).isEmpty then some v else none

/-- `JSON.parse` on a string. -/
def jsonParse (s : String) : Option Json := parseJsonChars s.data

/-!  ## The incremental JSON stream extractor (`parseJsonStream`, src/index.tsx
lines 196-229)

The source keeps a growing text `buffer`; on each chunk it appends the chunk,
then repeatedly takes `start = buffer.indexOf('{')` and scans forward counting
brace depth until the count first returns to 0 at some `end > start`.  If such
an `end` exists it tries `JSON.parse` on `buffer.substring(start, end + 1)`:
on success the value is yielded and the buffer is advanced past `end`; on
failure the search restarts at the next brace after `start` without discarding
the buffer.  If no `end` exists it waits for the next chunk. -/

/-- Index of the first opening brace of a character list (`indexOf('{')`). -/
def braceIdx : List Char → Option Nat
  | [] => none
  | c :: r => if c = '{' then some 0 else (braceIdx r).map (· + 1)

/-- `buffer.indexOf('{', s)`: index of the first opening brace at or after
position `s`. -/
def findBrace (l : List Char) (s : Nat) : Option Nat :=
  (braceIdx (l.drop s)).map (· + s)

/-- The brace-depth scan of the source's inner `for` loop, relative form:
walk the list updating `depth` (`+1` on an opening brace, `-1` on a closing
one) and return the first offset `pos > 0` where the depth is 0. -/
def closeRel : List Char → Int → Nat → Option Nat
  | [], _, _ => none
  | ch :: r, depth, pos =>
    let d : Int := if ch = '{' then depth + 1 else if ch = '}' then depth - 1 else depth
    if d = 0 ∧ 0 < pos then some pos else closeRel r d (pos + 1)

/-- Position `end` of the matching close for the candidate starting at `s`:
the first `i > s` at which the brace count returns to 0. -/
def findClose (l : List Char) (s : Nat) : Option Nat :=
  (closeRel (l.drop s) 0 0).map (· + s)

/-- `buffer.substring(s, e + 1)`: characters at positions `s..e`. -/
def subseg (l : List Char) (s e : Nat) : List Char :=
  (l.drop s).take (e + 1 - s)

/-- Bounds for the brace-depth scan (used for the loop's termination). -/
theorem closeRel_bounds : ∀ (l : List Char) (d : Int) (p q : Nat),
    closeRel l d p = some q → p ≤ q ∧ q < p + l.length ∧ 0 < q := by
  intro l
  induction l with
  | nil => intro d p q h; simp [closeRel] at h
  | cons c r ih =>
    intro d p q h
    simp only [closeRel] at h
    by_cases hg : ((if c = '{' then d + 1 else if c = '}' then d - 1 else d) = 0 ∧ 0 < p)
    · rw [if_pos hg] at h
      cases h
      exact ⟨le_refl _, by simp only [List.length_cons]; omega, hg.2⟩
    · rw [if_neg hg] at h
      have := ih _ _ _ h
      exact ⟨by omega, by simp only [List.length_cons]; omega, this.2.2⟩

/-- A found opening-brace index is within the list. -/
theorem braceIdx_lt : ∀ (l : List Char) (i : Nat), braceIdx l = some i → i < l.length := by
  intro l
  induction l with
  | nil => intro i h; simp [braceIdx] at h
  | cons c r ih =>
    intro i h
    unfold braceIdx at h
    split at h
    · cases h; simp
    · rcases Option.map_eq_some'.mp h with ⟨j, hj, rfl⟩
      have := ih _ hj
      simp; omega

/-- Bounds for `findBrace`. -/
theorem findBrace_bounds {l : List Char} {s i : Nat} (h : findBrace l s = some i) :
    s ≤ i ∧ i < l.length := by
  unfold findBrace at h
  rcases Option.map_eq_some'.mp h with ⟨j, hj, rfl⟩
  have hlt := braceIdx_lt _ _ hj
  rw [List.length_drop] at hlt
  omega

/-- Bounds for `findClose`. -/
theorem findClose_bounds {l : List Char} {s e : Nat} (h : findClose l s = some e) :
    s < e ∧ e < l.length := by
  unfold findClose at h
  rcases Option.map_eq_some'.mp h with ⟨off, hoff, rfl⟩
  have hb := closeRel_bounds _ _ _ _ hoff
  rw [List.length_drop] at hb
  omega

/-- The source's `while (start !== -1)` loop over one buffer state: emitted
values and the buffer left for the next chunk. -/
def scanLoop (buf : List Char) (s : Nat) : List Json × List Char :=
  match h : findClose buf s with
  | none => ([], buf)
  | some e =>
    match parseJsonChars (subseg buf s e) with
    | some v =>
      match h3 : findBrace (buf.drop (e + 1)) 0 with
      | none => ([v], buf.drop (e + 1))
      | some s' =>
        (v :: (scanLoop (buf.drop (e + 1)) s').1, (scanLoop (buf.drop (e + 1)) s').2)
    | none =>
      match h2 : findBrace buf (s + 1) with
      | none => ([], buf)
      | some s' => scanLoop buf s'
termination_by 2 * buf.length - s
decreasing_by
  all_goals first
  | (have hb := findClose_bounds h
     have hs' := findBrace_bounds h3
     simp only [List.length_drop] at hs' ⊢
     omega)
  | (have hb := findClose_bounds h
     have hs' := findBrace_bounds h2
     omega)

/-- One chunk arrival (the body of the source's `for await` loop): take the
first brace of the buffer, if any, and run the scan loop. -/
def processChunk (buf : List Char) : List Json × List Char :=
  match findBrace buf 0 with
  | none => ([], buf)
  | some s => scanLoop buf s

/-- The whole stream: fold chunk arrivals over the growing buffer, collecting
the yielded values in order.  (Chunks whose `text` is not a string are skipped
by the source's `typeof` guard; chunks are modelled as the strings that
remain.) -/
def runStream : List String → List Char → List Json
  | [], _ => []
  | c :: cs, buf =>
    let p := processChunk (buf ++ c.data)
    p.1 ++ runStream cs p.2

/-- `parseJsonStream` (src/index.tsx lines 196-229): the ordered sequence of
JSON values the extractor yields on a given chunk sequence. -/
def parseJsonStream (chunks : List String) : List Json := runStream chunks []

/-- Position `p` holds a candidate object that brace-matches but fails
`JSON.parse` (the scanner will skip past it). -/
def FailCand (buf : List Char) (p : Nat) : Prop :=
  ∃ e, findClose buf p = some e ∧ parseJsonChars (subseg buf p e) = none

/-- The scan states `(buf, s)` the loop can actually be in: `s` holds an
opening brace, and every earlier opening brace is a failed candidate. -/
def Reach (buf : List Char) (s : Nat) : Prop :=
  buf.get? s = some '{' ∧ ∀ p, p < s → buf.get? p = some '{' → FailCand buf p

/-- The total text of a chunk sequence, as characters. -/
def joinData (chunks : List String) : List Char :=
  chunks.foldr (fun s acc => s.data ++ acc) []

/-!  ## Session / artifact state machine and undo-redo history -/

/-- `Artifact.status` (`'streaming' | 'complete' | 'error'`). -/
inductive ArtifactStatus where
  | streaming
  | complete
  | error
deriving DecidableEq

/-- One generated UI component candidate. -/
structure Artifact where
  id : String
  styleName : String
  html : String
  status : ArtifactStatus
deriving DecidableEq

/-- One prompt with its artifacts. -/
structure Session where
  id : String
  prompt : String
  timestamp : Nat
  artifacts : List Artifact
deriving DecidableEq

/-- The `AppState` snapshot unit stored in the history stacks
(src/index.tsx lines 37-40). -/
structure AppState where
  sessions : List Session
  currentSessionIndex : Int
deriving DecidableEq

/-- The two history stacks (src/index.tsx line 64). -/
structure HistoryState where
  past : List AppState
  future : List AppState
deriving DecidableEq

/-- The mutable component state relevant to the claims: the live sessions,
the current-session cursor, the history stacks and the focused-artifact
cursor. -/
structure FullState where
  sessions : List Session
  currentSessionIndex : Int
  history : HistoryState
  focusedArtifactIndex : Option Nat
deriving DecidableEq

/-- `pushToHistory` (lines 162-167): push the live `(sessions,
currentSessionIndex)` onto `past` and clear `future`. -/
def pushToHistory (st : FullState) : FullState :=
  { st with
    history :=
      { past := st.history.past ++
          [{ sessions := st.sessions, currentSessionIndex := st.currentSessionIndex }],
        future := [] } }

/-- `handleUndo` (lines 169-180): no-op on empty `past`; otherwise move the
top of `past` to the front of `future` (pushing the live state there) and
restore the popped snapshot as live. -/
def handleUndo (st : FullState) : FullState :=
  match st.history.past.getLast? with
  | none => st
  | some previous =>
    { st with
      sessions := previous.sessions
      currentSessionIndex := previous.currentSessionIndex
      history :=
        { past := st.history.past.dropLast,
          future := { sessions := st.sessions,
                      currentSessionIndex := st.currentSessionIndex } :: st.history.future } }

/-- `handleRedo` (lines 182-193): symmetric to undo using `future`. -/
def handleRedo (st : FullState) : FullState :=
  match st.history.future with
  | [] => st
  | next :: newFuture =>
    { st with
      sessions := next.sessions
      currentSessionIndex := next.currentSessionIndex
      history :=
        { past := st.history.past ++
            [{ sessions := st.sessions, currentSessionIndex := st.currentSessionIndex }],
          future := newFuture } }

/-- Index-passing map (the source's `artifacts.map((art, i) => ...)` and
`sessions.map((sess, i) => ...)`). -/
def mapWithIdxFrom (f : Nat → α → β) : Nat → List α → List β
  | _, [] => []
  | i, a :: rest => f i a :: mapWithIdxFrom f (i + 1) rest

/-- Map with element indices starting at 0. -/
def mapWithIdx (f : Nat → α → β) (l : List α) : List β := mapWithIdxFrom f 0 l

/-- The inline error markup of `generateArtifact`'s catch branch (line 595). -/
def errorHtml (msg : String) : String :=
  "<div style=\"color: #ff6b6b; padding: 20px;\">Error: " ++ msg ++ "</div>"

/-- Per-artifact update of the streaming loop (lines 564-571): replace the
html of the artifact with the given id by the accumulated text. -/
def streamUpdArt (artifactId h : String) (art : Artifact) : Artifact :=
  if art.id = artifactId then { art with html := h } else art

/-- Per-artifact completion update (lines 580-587): `status` is `complete`
when the final html is non-empty, `error` otherwise. -/
def finalizeArt (artifactId h : String) (art : Artifact) : Artifact :=
  if art.id = artifactId then
    { art with
      html := h
      status := if h = "" then ArtifactStatus.error else ArtifactStatus.complete }
  else art

/-- Per-artifact failure update of the catch branch (lines 589-599). -/
def errFinalizeArt (artifactId msg : String) (art : Artifact) : Artifact :=
  if art.id = artifactId then
    { art with html := errorHtml msg, status := ArtifactStatus.error }
  else art

/-- The `setSessions(prev => prev.map(sess => sess.id === sessionId ? {...sess,
artifacts: sess.artifacts.map(f)} : sess))` shape shared by the artifact
updates keyed by session id. -/
def mapSessionArtifacts (sessionId : String) (f : Artifact → Artifact)
    (sessions : List Session) : List Session :=
  sessions.map (fun sess =>
    if sess.id = sessionId then { sess with artifacts := sess.artifacts.map f } else sess)

/-- A placeholder artifact of a fresh session (lines 459-464). -/
def placeholderArtifact (sessionId : String) (i : Nat) : Artifact :=
  { id := sessionId ++ "_" ++ toString i
    styleName := "Analyzing request..."
    html := ""
    status := ArtifactStatus.streaming }

/-- The fresh session allocated on submit (lines 466-471): exactly 3
placeholder artifacts. -/
def newSession (sessionId prompt : String) (timestamp : Nat) : Session :=
  { id := sessionId, prompt := prompt, timestamp := timestamp
    artifacts := (List.range 3).map (placeholderArtifact sessionId) }

/-- The state transition of submitting a prompt (lines 453-475):
`pushToHistory`, append the new session, increment the cursor, unfocus. -/
def submitPrompt (sessionId prompt : String) (timestamp : Nat) (st : FullState) : FullState :=
  let st1 := pushToHistory st
  { st1 with
    sessions := st1.sessions ++ [newSession sessionId prompt timestamp]
    currentSessionIndex := st1.currentSessionIndex + 1
    focusedArtifactIndex := none }

/-- The state-mutating operations of the component that touch `sessions`,
`currentSessionIndex` or the history:
* `streamUpdate`/`finalize`/`errorFinalize`: one artifact's streaming html
  update, successful completion, and failure conversion (lines 560-599);
* `setStyles`: the style-name rewrite after the naming call (lines 525-534;
  in the source the names list always has exactly 3 entries here, so the
  `getD` default branch is never taken);
* `applyVar`: `applyVariation` (lines 286-298), which records history first
  and returns after the push when nothing is focused;
* `genImages`: `handleGenerateImages` (lines 372-444), which returns before
  the push when no session is current or nothing is focused, and rewrites the
  focused artifact's html only when at least one image was generated;
* `submit`: `handleSendMessage`'s session allocation (lines 453-475). -/
inductive Op where
  | streamUpdate (sessionId artifactId html : String)
  | finalize (sessionId artifactId finalHtml : String)
  | errorFinalize (sessionId artifactId msg : String)
  | setStyles (sessionId : String) (names : List String)
  | applyVar (html : String)
  | genImages (html : String) (changed : Bool)
  | submit (sessionId prompt : String) (timestamp : Nat)
deriving DecidableEq

/-- Apply one operation to the component state, as the source does. -/
def applyOp (st : FullState) (op : Op) : FullState :=
  match op with
  | .streamUpdate sessionId artifactId h =>
    { st with sessions := mapSessionArtifacts sessionId (streamUpdArt artifactId h) st.sessions }
  | .finalize sessionId artifactId h =>
    { st with sessions := mapSessionArtifacts sessionId (finalizeArt artifactId h) st.sessions }
  | .errorFinalize sessionId artifactId msg =>
    { st with sessions := mapSessionArtifacts sessionId (errFinalizeArt artifactId msg) st.sessions }
  | .setStyles sessionId names =>
    { st with sessions := st.sessions.map (fun s =>
        if s.id = sessionId then
          { s with artifacts := mapWithIdx (fun i art =>
              { art with styleName := names.getD i art.styleName }) s.artifacts }
        else s) }
  | .applyVar h =>
    let st1 := pushToHistory st
    match st.focusedArtifactIndex with
    | none => st1
    | some j =>
      { st1 with sessions := mapWithIdx (fun i sess =>
          if (i : Int) = st.currentSessionIndex then
            { sess with artifacts := (mapWithIdx (fun k art =>
                if k = j then { art with html := h, status := ArtifactStatus.complete } else art)
                sess.artifacts) }
          else sess) st1.sessions }
  | .genImages h changed =>
    if st.currentSessionIndex < 0 ∨ (st.sessions.length : Int) ≤ st.currentSessionIndex then st
    else
      match st.focusedArtifactIndex with
      | none => st
      | some j =>
        let st1 := pushToHistory st
        if changed then
          { st1 with sessions := mapWithIdx (fun i sess =>
              if (i : Int) = st.currentSessionIndex then
                { sess with artifacts := (mapWithIdx (fun k art =>
                    if k = j then { art with html := h } else art) sess.artifacts) }
              else sess) st1.sessions }
        else st1
  | .submit sessionId prompt timestamp => submitPrompt sessionId prompt timestamp st

/-- A sequence of operations applied in order. -/
def applyOps (ops : List Op) (st : FullState) : FullState := ops.foldl applyOp st

/-!  ## Style-name extraction (src/index.tsx lines 503-523) -/

/-- Index of the first occurrence of a character. -/
def charIdx (ch : Char) : List Char → Option Nat
  | [] => none
  | c :: r => if c = ch then some 0 else (charIdx ch r).map (· + 1)

/-- Index of the last occurrence of a character. -/
def lastCharIdx (ch : Char) (l : List Char) : Option Nat :=
  (charIdx ch l.reverse).map (fun k => l.length - 1 - k)

/-- The `styleText.match(/\[[\s\S]*\]/)` regex: the (greedy) match runs from
the first `[` to the last `]`, and exists exactly when that span is
non-degenerate. -/
def extractJsonArrayText (s : String) : Option String :=
  match charIdx '[' s.data, lastCharIdx ']' s.data with
  | some i, some j => if i < j then some (String.mk (subseg s.data i j)) else none
  | _, _ => none

/-- The three fixed fallback style names (lines 515-521). -/
def fallbackStyles : List String :=
  ["Primary Pigment Gridwork", "Tactile Risograph Layering", "Kinetic Silhouette Balance"]

/-- The successfully parsed bracketed JSON array of the naming response, if
any.  The empty response text is coerced to `'[]'` by `response.text || '[]'`;
a match whose `JSON.parse` fails contributes nothing. -/
def parsedStyleArray (text : String) : Option (List Json) :=
  let t := if text = "" then "[]" else text
  match extractJsonArrayText t with
  | none => none
  | some sub =>
    match jsonParse sub with
    | some (Json.arr es) => some es
    | _ => none

/-- The final style-name list (lines 503-523): start from the parsed array
(or `[]`), substitute the three fallbacks when fewer than 3 entries were
obtained, then `slice(0, 3)`. -/
def computeStyles (text : String) : List Json :=
  let gs := (parsedStyleArray text).getD []
  let gs2 := if gs.length < 3 then fallbackStyles.map Json.str else gs
  gs2.take 3

/-!  ## `wrapHtml` (src/unnamed/part_000 lines 8-27) -/

/-- Does `pat` occur at the head of `l`? -/
def leads : List Char → List Char → Bool
  | [], _ => true
  | _ :: _, [] => false
  | p :: ps, c :: cs => p = c && leads ps cs

/-- Does `pat` occur anywhere in `l`?  (`String.prototype.includes`.) -/
def occursIn (pat : List Char) : List Char → Bool
  | [] => pat.isEmpty
  | c :: cs => leads pat (c :: cs) || occursIn pat cs

/-- `s.includes(pat)`. -/
def strIncludes (s pat : String) : Bool := occursIn pat.data s.data

/-- The marker `wrapHtml` tests for. -/
def doctypeMarker : String := "<!DOCTYPE html>"

/-- Head of the wrapper template, up to the interpolated title. -/
def tplHead : String :=
  "<!DOCTYPE html>\n<html lang=\"en\">\n<head>\n    <meta charset=\"UTF-8\">\n    <meta name=\"viewport\" content=\"width=device-width, initial-scale=1.0\">\n    <title>"

/-- Middle of the wrapper template, between the title and the body content. -/
def tplMid : String :=
  "</title>\n    <style>\n        body \x7b margin: 0; padding: 0; box-sizing: border-box; font-family: -apple-system, BlinkMacSystemFont, \"Segoe UI\", Roboto, Helvetica, Arial, sans-serif; background: #09090b; color: #fff; min-height: 100vh; display: flex; align-items: center; justify-content: center; \x7d\n        * \x7b box-sizing: inherit; \x7d\n        /* Reset for the container to ensure it takes space if needed */\n        body > div \x7b width: 100%; height: 100%; display: flex; align-items: center; justify-content: center; \x7d\n    </style>\n</head>\n<body>\n    "

/-- Tail of the wrapper template after the body content. -/
def tplTail : String := "\n</body>\n</html>"

/-- The full-document template with `title` and `html` interpolated. -/
def wrapHtmlTemplate (html title : String) : String :=
  tplHead ++ title ++ tplMid ++ html ++ tplTail

/-- `wrapHtml` (src/unnamed/part_000 lines 8-27): return the input unchanged
when it already contains `<!DOCTYPE html>`, otherwise wrap it in the
self-contained document template. -/
def wrapHtml (html title : String) : String :=
  if strIncludes html doctypeMarker then html else wrapHtmlTemplate html title

/-- The empty snapshot, used as a concrete sample point in witnesses. -/
def emptyAppSnapshot : AppState := { sessions := [], currentSessionIndex := -1 }

/-- A concrete component state with no sessions and the given history stacks,
used as a sample point in witnesses. -/
def baseState (past future : List AppState) : FullState :=
  { sessions := []
    currentSessionIndex := -1
    history := { past := past, future := future }
    focusedArtifactIndex := none }

/-- The terminal state-update performed by the `m`-th of the 3 concurrent
body-generation tasks, when task `w` throws with message `msg` and every
other task `m` completes with final html `good m` (lines 580-599). -/
def taskOp (sid : String) (arts : Fin 3 → Artifact) (w : Fin 3) (good : Fin 3 → String)
    (msg : String) (m : Fin 3) : Op :=
  if m = w then Op.errorFinalize sid (arts m).id msg
  else Op.finalize sid (arts m).id (good m)

/-- The final value of the `m`-th artifact in that scenario. -/
def taskResultArt (arts : Fin 3 → Artifact) (w : Fin 3) (good : Fin 3 → String)
    (msg : String) (m : Fin 3) : Artifact :=
  if m = w then { arts m with html := errorHtml msg, status := ArtifactStatus.error }
  else { arts m with html := good m, status := ArtifactStatus.complete }

/-- The per-artifact update function of the `m`-th task's terminal write. -/
def taskArtFn (arts : Fin 3 → Artifact) (w : Fin 3) (good : Fin 3 → String)
    (msg : String) (m : Fin 3) : Artifact → Artifact :=
  if m = w then errFinalizeArt (arts m).id msg else finalizeArt (arts m).id (good m)

/-- Concrete artifacts of session `s1`, used as a witness sample point. -/
def wArts : Fin 3 → Artifact := fun m => placeholderArtifact "s1" m.val

/-- Concrete non-empty final htmls, used as a witness sample point. -/
def wGood : Fin 3 → String := fun m => "g" ++ toString m.val

/-!  ## History round-trip lemmas and claims C2, C9 -/

/-- A list with a known last element is its `dropLast` plus that element. -/
theorem dropLast_append_getLast_of_some {α : Type _} {l : List α} {a : α}
    (h : l.getLast? = some a) : l.dropLast ++ [a] = l := by
  cases l with
  | nil => simp at h
  | cons b t =>
    have hne : (b :: t) ≠ [] := by simp
    rw [List.getLast?_eq_getLast _ hne] at h
    cases h
    exact List.dropLast_concat_getLast hne

/-- C2: `record()` immediately followed by `undo()` restores `sessions` and
`currentSessionIndex` to their exact pre-record values, and at every state
(hence at any stack depth and under arbitrary interleavings) `undo()`
followed by `redo()` restores the full pre-undo state — in particular, after
a `record()`, `undo()` then `redo()` restores the post-record values — and
symmetrically `redo()` then `undo()` is the identity whenever `future` is
non-empty. -/
theorem record_undo_redo_roundtrip :
    (∀ st : FullState,
      (handleUndo (pushToHistory st)).sessions = st.sessions ∧
      (handleUndo (pushToHistory st)).currentSessionIndex = st.currentSessionIndex) ∧
    (∀ st : FullState, st.history.past ≠ [] → handleRedo (handleUndo st) = st) ∧
    (∀ st : FullState, st.history.future ≠ [] → handleUndo (handleRedo st) = st) := by
  refine ⟨fun st => ?_, fun st hne => ?_, fun st hne => ?_⟩
  · simp [handleUndo, pushToHistory, List.getLast?_concat]
  · cases st with
    | mk sess idx hist foc =>
      cases hist with
      | mk past fut =>
        match hl : past.getLast? with
        | none =>
          rw [List.getLast?_eq_none_iff] at hl
          exact absurd hl hne
        | some prev =>
          have hrest := dropLast_append_getLast_of_some hl
          simp [handleUndo, handleRedo, hl, hrest]
  · cases st with
    | mk sess idx hist foc =>
      cases hist with
      | mk past fut =>
        match hf : fut with
        | [] => exact absurd rfl hne
        | next :: rest =>
          simp [handleRedo, handleUndo, List.getLast?_concat, List.dropLast_concat]

/-- Witness for C2 at a concrete state with non-empty stacks. -/
theorem record_undo_redo_roundtrip_witness :
    ((baseState [emptyAppSnapshot] []).history.past ≠ [] ∧
      handleRedo (handleUndo (baseState [emptyAppSnapshot] [])) =
        baseState [emptyAppSnapshot] []) ∧
    ((baseState [] [emptyAppSnapshot]).history.future ≠ [] ∧
      handleUndo (handleRedo (baseState [] [emptyAppSnapshot])) =
        baseState [] [emptyAppSnapshot]) :=
  ⟨⟨by decide, record_undo_redo_roundtrip.2.1 _ (by decide)⟩,
   ⟨by decide, record_undo_redo_roundtrip.2.2 _ (by decide)⟩⟩

/-- C9: `undo()` with an empty `past`, and `redo()` with an empty `future`,
are complete no-ops: the whole state (live `sessions`,
`currentSessionIndex`, and both stacks) is returned unchanged. -/
theorem undo_redo_empty_noop (st : FullState) :
    (st.history.past = [] → handleUndo st = st) ∧
    (st.history.future = [] → handleRedo st = st) := by
  constructor
  · intro h
    simp [handleUndo, h]
  · intro h
    simp [handleRedo, h]

/-- Witness for C9 at a concrete state. -/
theorem undo_redo_empty_noop_witness :
    ((baseState [] []).history.past = [] ∧
      handleUndo (baseState [] []) = baseState [] []) ∧
    ((baseState [] []).history.future = [] ∧
      handleRedo (baseState [] []) = baseState [] []) :=
  ⟨⟨rfl, (undo_redo_empty_noop _).1 rfl⟩, ⟨rfl, (undo_redo_empty_noop _).2 rfl⟩⟩

/-!  ## Claim C10: submitting a prompt -/

/-- C10: submitting a prompt appends the new session at the end of
`sessions` while setting `currentSessionIndex` to its previous value plus
one; hence the new session is the displayed one exactly when the previous
index was already the last index, and — under the component's index
invariant (`-1` for empty, otherwise a valid index) — the resulting index is
always a valid index into the extended list. -/
theorem submit_appends_increments_index (st : FullState) (sessionId prompt : String)
    (timestamp : Nat)
    (hinv : -1 ≤ st.currentSessionIndex ∧ st.currentSessionIndex < (st.sessions.length : Int)) :
    (submitPrompt sessionId prompt timestamp st).sessions =
      st.sessions ++ [newSession sessionId prompt timestamp] ∧
    (submitPrompt sessionId prompt timestamp st).currentSessionIndex =
      st.currentSessionIndex + 1 ∧
    ((submitPrompt sessionId prompt timestamp st).currentSessionIndex =
        ((submitPrompt sessionId prompt timestamp st).sessions.length : Int) - 1 ↔
      st.currentSessionIndex = (st.sessions.length : Int) - 1) ∧
    0 ≤ (submitPrompt sessionId prompt timestamp st).currentSessionIndex ∧
    (submitPrompt sessionId prompt timestamp st).currentSessionIndex <
      ((submitPrompt sessionId prompt timestamp st).sessions.length : Int) := by
  refine ⟨rfl, rfl, ?_, ?_, ?_⟩
  · simp [submitPrompt, pushToHistory]
    omega
  · simp [submitPrompt, pushToHistory]
    omega
  · simp [submitPrompt, pushToHistory]
    omega

/-- Witness for C10: submitting into the empty initial state puts the new
session at index 0 and displays it. -/
theorem submit_appends_increments_index_witness :
    (-1 ≤ (baseState [] []).currentSessionIndex ∧
      (baseState [] []).currentSessionIndex < ((baseState [] []).sessions.length : Int)) ∧
    (submitPrompt "s1" "a prompt" 7 (baseState [] [])).sessions =
      (baseState [] []).sessions ++ [newSession "s1" "a prompt" 7] ∧
    (submitPrompt "s1" "a prompt" 7 (baseState [] [])).currentSessionIndex =
      (baseState [] []).currentSessionIndex + 1 ∧
    ((submitPrompt "s1" "a prompt" 7 (baseState [] [])).currentSessionIndex =
        ((submitPrompt "s1" "a prompt" 7 (baseState [] [])).sessions.length : Int) - 1 ↔
      (baseState [] []).currentSessionIndex = ((baseState [] []).sessions.length : Int) - 1) ∧
    0 ≤ (submitPrompt "s1" "a prompt" 7 (baseState [] [])).currentSessionIndex ∧
    (submitPrompt "s1" "a prompt" 7 (baseState [] [])).currentSessionIndex <
      ((submitPrompt "s1" "a prompt" 7 (baseState [] [])).sessions.length : Int) :=
  ⟨by decide, submit_appends_increments_index (baseState [] []) "s1" "a prompt" 7 (by decide)⟩

/-!  ## Claim C8: `wrapHtml` produces a self-contained document -/

/-- A pattern occurs at the head of itself plus anything. -/
theorem leads_self_append : ∀ (x y : List Char), leads x (x ++ y) = true := by
  intro x
  induction x with
  | nil => intro y; rfl
  | cons c r ih => intro y; simp [leads, ih]

/-- `leads` is monotone in list extension. -/
theorem leads_append_of_leads : ∀ (p x y : List Char), leads p x = true → leads p (x ++ y) = true := by
  intro p
  induction p with
  | nil => intro x y _; rfl
  | cons c r ih =>
    intro x y h
    cases x with
    | nil => simp [leads] at h
    | cons d t =>
      simp only [leads, Bool.and_eq_true] at h ⊢
      exact ⟨h.1, ih _ _ h.2⟩

/-- A pattern at the head occurs. -/
theorem occursIn_of_leads : ∀ (p l : List Char), leads p l = true → occursIn p l = true := by
  intro p l h
  cases l with
  | nil =>
    cases p with
    | nil => rfl
    | cons c r => simp [leads] at h
  | cons c t => simp [occursIn, h]

/-- Occurrence is preserved by prepending. -/
theorem occursIn_append_left : ∀ (a : List Char) (p l : List Char),
    occursIn p l = true → occursIn p (a ++ l) = true := by
  intro a
  induction a with
  | nil => intro p l h; exact h
  | cons c r ih =>
    intro p l h
    simp only [List.cons_append, occursIn, Bool.or_eq_true]
    exact Or.inr (ih _ _ h)

/-- A pattern occurs in any list that embeds it. -/
theorem occursIn_embedded (a x b : List Char) : occursIn x (a ++ x ++ b) = true := by
  have h1 : occursIn x (x ++ b) = true := occursIn_of_leads _ _ (leads_self_append x b)
  have := occursIn_append_left a x (x ++ b) h1
  simpa [List.append_assoc] using this

/-- C8: the single-artifact download content `wrapHtml html title` always
contains the full-document marker `<!DOCTYPE html>`; it returns its input
unchanged exactly when the input already contains that marker (the source's
test for "already a full document"); and otherwise it is the fixed
doctype/head/body template with the given title in its `<title>` element and
the input in its body. -/
theorem wrapHtml_self_contained (html title : String) :
    strIncludes (wrapHtml html title) doctypeMarker = true ∧
    (wrapHtml html title = html ↔ strIncludes html doctypeMarker = true) ∧
    (strIncludes html doctypeMarker = false →
      wrapHtml html title = wrapHtmlTemplate html title ∧
      strIncludes (wrapHtmlTemplate html title) html = true ∧
      strIncludes (wrapHtmlTemplate html title) title = true) := by
  have hmark : strIncludes (wrapHtmlTemplate html title) doctypeMarker = true := by
    have hlead : leads doctypeMarker.data tplHead.data = true := by decide
    have h1 : leads doctypeMarker.data (wrapHtmlTemplate html title).data = true := by
      have : (wrapHtmlTemplate html title).data =
          tplHead.data ++ (title.data ++ tplMid.data ++ html.data ++ tplTail.data) := by
        simp [wrapHtmlTemplate]
      rw [this]
      exact leads_append_of_leads _ _ _ hlead
    exact occursIn_of_leads _ _ h1
  refine ⟨?_, ⟨?_, ?_⟩, ?_⟩
  · by_cases h : strIncludes html doctypeMarker = true
    · rw [wrapHtml, if_pos h]; exact h
    · rw [wrapHtml, if_neg h]; exact hmark
  · intro heq
    by_cases h : strIncludes html doctypeMarker = true
    · exact h
    · rw [wrapHtml, if_neg h] at heq
      rw [← heq] at h
      exact absurd hmark h
  · intro h
    rw [wrapHtml, if_pos h]
  · intro h
    have hn : ¬ strIncludes html doctypeMarker = true := by simp [h]
    refine ⟨by rw [wrapHtml, if_neg hn], ?_, ?_⟩
    · show occursIn html.data (wrapHtmlTemplate html title).data = true
      have : (wrapHtmlTemplate html title).data =
          (tplHead.data ++ title.data ++ tplMid.data) ++ html.data ++ tplTail.data := by
        simp [wrapHtmlTemplate]
      rw [this]
      exact occursIn_embedded _ _ _
    · show occursIn title.data (wrapHtmlTemplate html title).data = true
      have : (wrapHtmlTemplate html title).data =
          tplHead.data ++ title.data ++ (tplMid.data ++ html.data ++ tplTail.data) := by
        simp [wrapHtmlTemplate]
      rw [this]
      exact occursIn_embedded _ _ _

/-- Witness for C8 at a concrete fragment and title. -/
theorem wrapHtml_self_contained_witness :
    strIncludes "<p>hi</p>" doctypeMarker = false ∧
    wrapHtml "<p>hi</p>" "a-title" = wrapHtmlTemplate "<p>hi</p>" "a-title" ∧
    strIncludes (wrapHtmlTemplate "<p>hi</p>" "a-title") "<p>hi</p>" = true ∧
    strIncludes (wrapHtmlTemplate "<p>hi</p>" "a-title") "a-title" = true :=
  ⟨by decide, (wrapHtml_self_contained "<p>hi</p>" "a-title").2.2 (by decide)⟩

/-!  ## Claim C7: style-name extraction coerces to exactly 3 names -/

/-- C7: if no bracketed JSON array is found in the naming response, or it
fails to parse, or it parses to fewer than 3 entries, the computed style
names are the 3 fixed fallbacks; if it parses to 3 or more entries the
result is its first 3; and on the response text
`Here you go: ["A","B","C","D"]` the names are exactly `["A","B","C"]`. -/
theorem styleNames_coerced_to_three :
    (∀ text : String,
      (parsedStyleArray text = none ∨
        ∃ es, parsedStyleArray text = some es ∧ es.length < 3) →
      computeStyles text = fallbackStyles.map Json.str) ∧
    (∀ (text : String) (es : List Json), parsedStyleArray text = some es →
      3 ≤ es.length → computeStyles text = es.take 3) ∧
    computeStyles "Here you go: [\"A\",\"B\",\"C\",\"D\"]" =
      [Json.str "A", Json.str "B", Json.str "C"] := by
  refine ⟨fun text h => ?_, fun text es h hlen => ?_, rfl⟩
  · rcases h with h | ⟨es, h, hlen⟩
    · rw [computeStyles, h]
      rfl
    · rw [computeStyles, h]
      simp only [Option.getD_some]
      rw [if_pos hlen]
      rfl
  · rw [computeStyles, h]
    simp only [Option.getD_some]
    rw [if_neg (by omega)]

/-- Witness for C7: a response without an array falls back; the example
response truncates to its first 3 names. -/
theorem styleNames_coerced_to_three_witness :
    (parsedStyleArray "no array here" = none ∧
      computeStyles "no array here" = fallbackStyles.map Json.str) ∧
    (parsedStyleArray "Here you go: [\"A\",\"B\",\"C\",\"D\"]" =
        some [Json.str "A", Json.str "B", Json.str "C", Json.str "D"] ∧
      3 ≤ ([Json.str "A", Json.str "B", Json.str "C", Json.str "D"] : List Json).length ∧
      computeStyles "Here you go: [\"A\",\"B\",\"C\",\"D\"]" =
        ([Json.str "A", Json.str "B", Json.str "C", Json.str "D"] : List Json).take 3) :=
  ⟨⟨rfl, styleNames_coerced_to_three.1 _ (Or.inl rfl)⟩,
   ⟨rfl, by simp,
    styleNames_coerced_to_three.2.1 _ [Json.str "A", Json.str "B", Json.str "C", Json.str "D"]
      rfl (by simp)⟩⟩

/-!  ## Claims C1, C5: the stream extractor

The central fact is that processing a buffer and then appending more text is
the same as processing the extended buffer: candidate positions that failed
(or succeeded) in the shorter buffer fail (or succeed) identically in the
longer one, because the matching close position found for a candidate is the
first brace-balance point, which is stable under appending. -/

/-- `braceIdx` finds an opening brace and is minimal. -/
theorem braceIdx_get : ∀ (l : List Char) (i : Nat), braceIdx l = some i →
    l.get? i = some '{' ∧ ∀ j, j < i → l.get? j ≠ some '{' := by
  intro l
  induction l with
  | nil => intro i h; simp [braceIdx] at h
  | cons c r ih =>
    intro i h
    unfold braceIdx at h
    by_cases hc : c = '{'
    · rw [if_pos hc] at h
      cases h
      exact ⟨by simp [hc], fun j hj => absurd hj (Nat.not_lt_zero j)⟩
    · rw [if_neg hc] at h
      rcases Option.map_eq_some'.mp h with ⟨i', hi', rfl⟩
      rcases ih i' hi' with ⟨h1, h2⟩
      refine ⟨by simpa using h1, ?_⟩
      intro j hj
      cases j with
      | zero => simp [hc]
      | succ j' =>
        simp only [List.get?_cons_succ]
        exact h2 j' (by omega)

/-- When `braceIdx` fails there is no opening brace. -/
theorem braceIdx_none : ∀ (l : List Char), braceIdx l = none →
    ∀ j, l.get? j ≠ some '{' := by
  intro l
  induction l with
  | nil => intro _ j; simp
  | cons c r ih =>
    intro h j
    unfold braceIdx at h
    by_cases hc : c = '{'
    · rw [if_pos hc] at h; cases h
    · rw [if_neg hc] at h
      rw [Option.map_eq_none'] at h
      cases j with
      | zero => simp [hc]
      | succ j' =>
        simp only [List.get?_cons_succ]
        exact ih h j'

/-- A found brace index survives appending. -/
theorem braceIdx_append : ∀ (l c : List Char) (i : Nat), braceIdx l = some i →
    braceIdx (l ++ c) = some i := by
  intro l c
  induction l with
  | nil => intro i h; simp [braceIdx] at h
  | cons ch r ih =>
    intro i h
    rw [List.cons_append]
    unfold braceIdx at h ⊢
    by_cases hc : ch = '{'
    · rw [if_pos hc] at h ⊢; exact h
    · rw [if_neg hc] at h ⊢
      rcases Option.map_eq_some'.mp h with ⟨i', hi', rfl⟩
      rw [ih i' hi']
      rfl

/-- `findBrace` finds an opening brace, minimally so. -/
theorem findBrace_get {l : List Char} {s i : Nat} (h : findBrace l s = some i) :
    l.get? i = some '{' ∧ ∀ p, s ≤ p → p < i → l.get? p ≠ some '{' := by
  unfold findBrace at h
  rcases Option.map_eq_some'.mp h with ⟨j, hj, rfl⟩
  rcases braceIdx_get _ _ hj with ⟨h1, h2⟩
  rw [List.get?_drop] at h1
  constructor
  · rw [Nat.add_comm] at h1; exact h1
  · intro p hsp hpi
    have := h2 (p - s) (by omega)
    rw [List.get?_drop] at this
    have heq : s + (p - s) = p := by omega
    rw [heq] at this
    exact this

/-- When `findBrace` fails there is no opening brace at or after `s`. -/
theorem findBrace_none_get {l : List Char} {s : Nat} (h : findBrace l s = none) :
    ∀ p, s ≤ p → l.get? p ≠ some '{' := by
  unfold findBrace at h
  rw [Option.map_eq_none'] at h
  intro p hsp
  have := braceIdx_none _ h (p - s)
  rw [List.get?_drop] at this
  have heq : s + (p - s) = p := by omega
  rw [heq] at this
  exact this

/-- A brace at or after `s` guarantees `findBrace` finds one no later. -/
theorem findBrace_min {l : List Char} {s p : Nat} (hp : l.get? p = some '{')
    (hsp : s ≤ p) : ∃ i, findBrace l s = some i ∧ i ≤ p := by
  cases h : findBrace l s with
  | none => exact absurd hp (findBrace_none_get h p hsp)
  | some i =>
    refine ⟨i, rfl, ?_⟩
    by_contra hgt
    exact (findBrace_get h).2 p hsp (by omega) hp

/-- A found brace position survives appending. -/
theorem findBrace_append {l c : List Char} {s i : Nat} (h : findBrace l s = some i) :
    findBrace (l ++ c) s = some i := by
  have hb := findBrace_bounds h
  have hsl : s ≤ l.length := by omega
  unfold findBrace at h ⊢
  rcases Option.map_eq_some'.mp h with ⟨j, hj, rfl⟩
  rw [List.drop_append_eq_append_drop, Nat.sub_eq_zero_of_le hsl, List.drop_zero]
  rw [braceIdx_append _ _ _ hj]
  rfl

/-- A found close position survives appending. -/
theorem closeRel_append : ∀ (l c : List Char) (d : Int) (p q : Nat),
    closeRel l d p = some q → closeRel (l ++ c) d p = some q := by
  intro l c
  induction l with
  | nil => intro d p q h; simp [closeRel] at h
  | cons ch r ih =>
    intro d p q h
    rw [List.cons_append]
    simp only [closeRel] at h ⊢
    by_cases hg : ((if ch = '{' then d + 1 else if ch = '}' then d - 1 else d) = 0 ∧ 0 < p)
    · rw [if_pos hg] at h ⊢; exact h
    · rw [if_neg hg] at h ⊢
      exact ih _ _ _ h

/-- `findClose` is stable under appending. -/
theorem findClose_append {l c : List Char} {s e : Nat} (h : findClose l s = some e) :
    findClose (l ++ c) s = some e := by
  have hb := findClose_bounds h
  have hsl : s ≤ l.length := by omega
  unfold findClose at h ⊢
  rcases Option.map_eq_some'.mp h with ⟨off, hoff, rfl⟩
  rw [List.drop_append_eq_append_drop, Nat.sub_eq_zero_of_le hsl, List.drop_zero]
  rw [closeRel_append _ _ _ _ _ hoff]
  rfl

/-- A candidate substring within the buffer is stable under appending. -/
theorem subseg_append {l c : List Char} {s e : Nat} (hse : s ≤ e) (he : e < l.length) :
    subseg (l ++ c) s e = subseg l s e := by
  unfold subseg
  have hsl : s ≤ l.length := by omega
  rw [List.drop_append_eq_append_drop, Nat.sub_eq_zero_of_le hsl, List.drop_zero]
  rw [List.take_append_eq_append_take]
  have hlen : e + 1 - s ≤ (l.drop s).length := by
    rw [List.length_drop]; omega
  rw [Nat.sub_eq_zero_of_le hlen, List.take_zero, List.append_nil]

/-- Reachable scan states are stable under appending. -/
theorem Reach_append {buf c : List Char} {s : Nat} (h : Reach buf s) :
    Reach (buf ++ c) s := by
  obtain ⟨hs, hf⟩ := h
  have hslen : s < buf.length := by
    by_contra hge
    rw [List.get?_eq_none.mpr (by omega)] at hs
    cases hs
  refine ⟨by rw [List.get?_append hslen]; exact hs, ?_⟩
  intro p hp hbp
  have hplen : p < buf.length := by omega
  rw [List.get?_append hplen] at hbp
  obtain ⟨e, hce, hpe⟩ := hf p hp hbp
  have heb := findClose_bounds hce
  exact ⟨e, findClose_append hce,
    by rw [subseg_append (le_of_lt heb.1) heb.2]; exact hpe⟩

/-- `scanLoop` with no matching close waits for more input. -/
theorem scanLoop_close_none {buf : List Char} {s : Nat} (h : findClose buf s = none) :
    scanLoop buf s = ([], buf) := by
  rw [scanLoop.eq_def, h]

/-- `scanLoop` on a failed candidate with no later brace stops. -/
theorem scanLoop_fail_none {buf : List Char} {s e : Nat}
    (hc : findClose buf s = some e) (hp : parseJsonChars (subseg buf s e) = none)
    (hb : findBrace buf (s + 1) = none) : scanLoop buf s = ([], buf) := by
  rw [scanLoop.eq_def, hc]
  split
  · rename_i heq; exact Option.noConfusion heq
  · rename_i e1 heq
    injection heq with heq
    subst heq
    rw [hp, hb]

/-- `scanLoop` on a failed candidate advances to the next brace. -/
theorem scanLoop_fail_some {buf : List Char} {s e s' : Nat}
    (hc : findClose buf s = some e) (hp : parseJsonChars (subseg buf s e) = none)
    (hb : findBrace buf (s + 1) = some s') : scanLoop buf s = scanLoop buf s' := by
  conv_lhs => rw [scanLoop.eq_def]
  rw [hc]
  split
  · rename_i heq; exact Option.noConfusion heq
  · rename_i e1 heq
    injection heq with heq
    subst heq
    rw [hp, hb]

/-- `scanLoop` on a successful candidate with no further brace emits and
stops. -/
theorem scanLoop_succ_none {buf : List Char} {s e : Nat} {v : Json}
    (hc : findClose buf s = some e) (hp : parseJsonChars (subseg buf s e) = some v)
    (hb : findBrace (buf.drop (e + 1)) 0 = none) :
    scanLoop buf s = ([v], buf.drop (e + 1)) := by
  rw [scanLoop.eq_def, hc]
  split
  · rename_i heq; exact Option.noConfusion heq
  · rename_i e1 heq
    injection heq with heq
    subst heq
    rw [hp, hb]

/-- `scanLoop` on a successful candidate emits and continues at the next
brace of the advanced buffer. -/
theorem scanLoop_succ_some {buf : List Char} {s e s' : Nat} {v : Json}
    (hc : findClose buf s = some e) (hp : parseJsonChars (subseg buf s e) = some v)
    (hb : findBrace (buf.drop (e + 1)) 0 = some s') :
    scanLoop buf s = (v :: (scanLoop (buf.drop (e + 1)) s').1,
      (scanLoop (buf.drop (e + 1)) s').2) := by
  conv_lhs => rw [scanLoop.eq_def]
  rw [hc]
  split
  · rename_i heq; exact Option.noConfusion heq
  · rename_i e1 heq
    injection heq with heq
    subst heq
    rw [hp, hb]

/-- `processChunk` with no brace in the buffer does nothing. -/
theorem processChunk_brace_none {b : List Char} (h : findBrace b 0 = none) :
    processChunk b = ([], b) := by
  unfold processChunk
  rw [h]

/-- `processChunk` starts the scan at the first brace. -/
theorem processChunk_brace_some {b : List Char} {s : Nat} (h : findBrace b 0 = some s) :
    processChunk b = scanLoop b s := by
  unfold processChunk
  rw [h]

/-- Rescanning from an earlier position reaches `s` again: every candidate
brace before `s` fails again, so the scan lands back on `s`. -/
theorem scanLoop_skip (B : List Char) :
    ∀ (n s₀ s : Nat), s - s₀ ≤ n → s₀ ≤ s → B.get? s = some '{' →
      B.get? s₀ = some '{' →
      (∀ p, s₀ ≤ p → p < s → B.get? p = some '{' → FailCand B p) →
      scanLoop B s₀ = scanLoop B s := by
  intro n
  induction n with
  | zero =>
    intro s₀ s h1 h2 _ _ _
    have : s₀ = s := by omega
    rw [this]
  | succ n ih =>
    intro s₀ s h1 h2 hs hs₀ hfail
    by_cases he : s₀ = s
    · rw [he]
    · have hlt : s₀ < s := by omega
      obtain ⟨e, hce, hpe⟩ := hfail s₀ (le_refl _) hlt hs₀
      obtain ⟨s₁, hb1, hle1⟩ := findBrace_min hs (by omega : s₀ + 1 ≤ s)
      have hbs₁ := (findBrace_get hb1).1
      have hb1b := findBrace_bounds hb1
      rw [scanLoop_fail_some hce hpe hb1]
      exact ih s₁ s (by omega) hle1 hs hbs₁
        (fun p hp1 hp2 hbp => hfail p (by omega) hp2 hbp)

/-- On a reachable state the chunk entry point lands exactly on `s`. -/
theorem processChunk_eq_scanLoop {B : List Char} {s : Nat} (hr : Reach B s) :
    processChunk B = scanLoop B s := by
  obtain ⟨hs, hf⟩ := hr
  obtain ⟨s₀, hb0, hle⟩ := findBrace_min hs (Nat.zero_le s)
  rw [processChunk_brace_some hb0]
  exact scanLoop_skip B (s - s₀) s₀ s (le_refl _) hle hs (findBrace_get hb0).1
    (fun p _ hp2 hbp => hf p hp2 hbp)

/-- The key decomposition: scanning an extended buffer from a reachable state
is scanning the original buffer and then processing the residual plus the new
text. -/
theorem scanLoop_append (c : List Char) :
    ∀ (n : Nat) (buf : List Char) (s : Nat), 2 * buf.length - s ≤ n → Reach buf s →
      scanLoop (buf ++ c) s =
        ((scanLoop buf s).1 ++ (processChunk ((scanLoop buf s).2 ++ c)).1,
         (processChunk ((scanLoop buf s).2 ++ c)).2) := by
  intro n
  induction n with
  | zero =>
    intro buf s hm hr
    exfalso
    obtain ⟨hs, _⟩ := hr
    have hslen : s < buf.length := by
      by_contra hge
      rw [List.get?_eq_none.mpr (by omega)] at hs
      exact Option.noConfusion hs
    omega
  | succ n ih =>
    intro buf s hm hr
    obtain ⟨hs, hf⟩ := hr
    have hslen : s < buf.length := by
      by_contra hge
      rw [List.get?_eq_none.mpr (by omega)] at hs
      exact Option.noConfusion hs
    cases hc : findClose buf s with
    | none =>
      rw [scanLoop_close_none hc, List.nil_append]
      exact (processChunk_eq_scanLoop (Reach_append ⟨hs, hf⟩)).symm
    | some e =>
      have hbounds := findClose_bounds hc
      have hc' := @findClose_append buf c s e hc
      cases hp : parseJsonChars (subseg buf s e) with
      | none =>
        have hp' : parseJsonChars (subseg (buf ++ c) s e) = none := by
          rw [subseg_append (le_of_lt hbounds.1) hbounds.2]; exact hp
        cases hb : findBrace buf (s + 1) with
        | none =>
          rw [scanLoop_fail_none hc hp hb, List.nil_append]
          exact (processChunk_eq_scanLoop (Reach_append ⟨hs, hf⟩)).symm
        | some s₁ =>
          rw [scanLoop_fail_some hc hp hb]
          have hb' := @findBrace_append buf c (s + 1) s₁ hb
          rw [scanLoop_fail_some hc' hp' hb']
          have hspec := findBrace_get hb
          have hbnd := findBrace_bounds hb
          apply ih buf s₁ (by omega)
          refine ⟨hspec.1, ?_⟩
          intro p hp1 hbp
          by_cases hps : p < s
          · exact hf p hps hbp
          · by_cases hpe : p = s
            · subst hpe; exact ⟨e, hc, hp⟩
            · exact absurd hbp (hspec.2 p (by omega) hp1)
      | some v =>
        have hp' : parseJsonChars (subseg (buf ++ c) s e) = some v := by
          rw [subseg_append (le_of_lt hbounds.1) hbounds.2]; exact hp
        have hdrop : (buf ++ c).drop (e + 1) = buf.drop (e + 1) ++ c := by
          rw [List.drop_append_eq_append_drop,
            Nat.sub_eq_zero_of_le (by omega : e + 1 ≤ buf.length), List.drop_zero]
        cases hb : findBrace (buf.drop (e + 1)) 0 with
        | some s₁ =>
          have hb' : findBrace ((buf ++ c).drop (e + 1)) 0 = some s₁ := by
            rw [hdrop]; exact findBrace_append hb
          rw [scanLoop_succ_some hc hp hb, scanLoop_succ_some hc' hp' hb', hdrop]
          have hspec := findBrace_get hb
          have hbnd := findBrace_bounds hb
          rw [List.length_drop] at hbnd
          have ihres := ih (buf.drop (e + 1)) s₁
            (by rw [List.length_drop]; omega)
            ⟨hspec.1, fun p hp1 hbp => absurd hbp (hspec.2 p (Nat.zero_le p) hp1)⟩
          rw [ihres]
          simp [List.cons_append]
        | none =>
          rw [scanLoop_succ_none hc hp hb]
          cases hb2 : findBrace (buf.drop (e + 1) ++ c) 0 with
          | none =>
            have hb2' : findBrace ((buf ++ c).drop (e + 1)) 0 = none := by
              rw [hdrop]; exact hb2
            rw [scanLoop_succ_none hc' hp' hb2', hdrop,
              processChunk_brace_none hb2]
            simp
          | some t =>
            have hb2' : findBrace ((buf ++ c).drop (e + 1)) 0 = some t := by
              rw [hdrop]; exact hb2
            rw [scanLoop_succ_some hc' hp' hb2', hdrop,
              processChunk_brace_some hb2]
            simp

/-- `processChunk` over an extended buffer decomposes into `processChunk`
over the original buffer followed by `processChunk` over the residual plus
the new text. -/
theorem processChunk_append (buf c : List Char) :
    processChunk (buf ++ c) =
      ((processChunk buf).1 ++ (processChunk ((processChunk buf).2 ++ c)).1,
       (processChunk ((processChunk buf).2 ++ c)).2) := by
  cases hb : findBrace buf 0 with
  | none =>
    rw [processChunk_brace_none hb]
    rfl
  | some s₀ =>
    have hspec := findBrace_get hb
    rw [processChunk_brace_some hb]
    have hb' := @findBrace_append buf c 0 s₀ hb
    rw [processChunk_brace_some hb']
    exact scanLoop_append c (2 * buf.length) buf s₀ (by omega)
      ⟨hspec.1, fun p hp hbp => absurd hbp (hspec.2 p (Nat.zero_le p) hp)⟩

/-- The residual buffer left by `processChunk` is quiescent: reprocessing it
without new text emits nothing and leaves it unchanged. -/
theorem processChunk_residual (buf : List Char) :
    processChunk ((processChunk buf).2) = ([], (processChunk buf).2) := by
  have h := processChunk_append buf []
  simp only [List.append_nil] at h
  have h1 : (processChunk buf).1 =
      (processChunk buf).1 ++ (processChunk (processChunk buf).2).1 :=
    congrArg (fun p => p.1) h
  have h2 : (processChunk buf).2 = (processChunk (processChunk buf).2).2 :=
    congrArg (fun p => p.2) h
  have hnil : (processChunk (processChunk buf).2).1 = [] := by
    have hlen := congrArg List.length h1
    rw [List.length_append] at hlen
    exact List.eq_nil_of_length_eq_zero (by omega)
  have heta : processChunk (processChunk buf).2 =
      ((processChunk (processChunk buf).2).1, (processChunk (processChunk buf).2).2) := rfl
  rw [heta, hnil, ← h2]

/-- `runStream` over a quiescent buffer equals processing the whole
remaining text at once. -/
theorem runStream_eq_processChunk : ∀ (cs : List String) (buf : List Char),
    processChunk buf = ([], buf) →
    runStream cs buf = (processChunk (buf ++ joinData cs)).1 := by
  intro cs
  induction cs with
  | nil =>
    intro buf hq
    show ([] : List Json) = _
    rw [show joinData [] = [] from rfl, List.append_nil, hq]
  | cons ch cs ih =>
    intro buf hq
    simp only [runStream]
    rw [ih _ (processChunk_residual (buf ++ ch.data))]
    rw [show joinData (ch :: cs) = ch.data ++ joinData cs from rfl, ← List.append_assoc,
      processChunk_append (buf ++ ch.data) (joinData cs)]

/-- The extractor's output depends only on the total text. -/
theorem parseJsonStream_eq_processChunk (cs : List String) :
    parseJsonStream cs = (processChunk (joinData cs)).1 := by
  unfold parseJsonStream
  rw [runStream_eq_processChunk cs [] rfl, List.nil_append]

/-- The character data of a joined chunk list. -/
theorem join_data_eq (cs : List String) : (String.join cs).data = joinData cs := by
  have key : ∀ (l : List String) (s : String),
      (l.foldl (fun r t => r ++ t) s).data = s.data ++ joinData l := by
    intro l
    induction l with
    | nil => intro s; simp [joinData]
    | cons ch cs ih =>
      intro s
      rw [List.foldl_cons, ih, String.data_append,
        show joinData (ch :: cs) = ch.data ++ joinData cs from rfl, List.append_assoc]
  rw [show String.join cs = cs.foldl (fun r t => r ++ t) "" from rfl, key]
  rfl

/-- C1: for every complete input text, every partition of that text into
chunks makes `parseJsonStream` emit the same ordered sequence of parsed JSON
objects — chunk boundaries are purely a suspension mechanism and never
change which objects are emitted or their order. -/
theorem parseJsonStream_chunk_invariant (cs₁ cs₂ : List String)
    (h : String.join cs₁ = String.join cs₂) :
    parseJsonStream cs₁ = parseJsonStream cs₂ := by
  rw [parseJsonStream_eq_processChunk, parseJsonStream_eq_processChunk,
    ← join_data_eq, ← join_data_eq, h]

/-- Witness for C1: the spec's example text split at a chunk boundary inside
the second object versus delivered whole. -/
theorem parseJsonStream_chunk_invariant_witness :
    String.join ["\x7b\"a\":1,\"b\":\x7b\"c\":2\x7d\x7d\x7b\"x\":", "5\x7d"] =
      String.join ["\x7b\"a\":1,\"b\":\x7b\"c\":2\x7d\x7d\x7b\"x\":5\x7d"] ∧
    parseJsonStream ["\x7b\"a\":1,\"b\":\x7b\"c\":2\x7d\x7d\x7b\"x\":", "5\x7d"] =
      parseJsonStream ["\x7b\"a\":1,\"b\":\x7b\"c\":2\x7d\x7d\x7b\"x\":5\x7d"] :=
  ⟨rfl, parseJsonStream_chunk_invariant _ _ rfl⟩

/-- C5: when the input stream ends in the middle of a top-level JSON object
— after the objects completed in `u`, the leftover text begins an object
whose opening brace never sees its matching close — the extractor emits
exactly the objects completed before the trailing incomplete object and
nothing for the incomplete tail; being a total function it raises no
error. -/
theorem parseJsonStream_drops_incomplete_tail (u v : String)
    (hv : ∀ s₀, findBrace ((processChunk u.data).2 ++ v.data) 0 = some s₀ →
      findClose ((processChunk u.data).2 ++ v.data) s₀ = none) :
    parseJsonStream [u ++ v] = parseJsonStream [u] := by
  rw [parseJsonStream_eq_processChunk, parseJsonStream_eq_processChunk]
  have hj : ∀ t : String, joinData [t] = t.data := fun t => by
    show t.data ++ [] = t.data
    exact List.append_nil _
  rw [hj, hj, String.data_append, processChunk_append]
  show (processChunk u.data).1 ++ (processChunk ((processChunk u.data).2 ++ v.data)).1 =
    (processChunk u.data).1
  cases hb : findBrace ((processChunk u.data).2 ++ v.data) 0 with
  | none => rw [processChunk_brace_none hb]; simp
  | some s₀ => rw [processChunk_brace_some hb, scanLoop_close_none (hv s₀ hb)]; simp

/-- Witness for C5: a complete object followed by a trailing incomplete
object is parsed to just the complete object. -/
theorem parseJsonStream_drops_incomplete_tail_witness :
    (∀ s₀, findBrace ((processChunk ("\x7b\"a\":1\x7d" : String).data).2 ++
        ("\x7b\"x\":" : String).data) 0 = some s₀ →
      findClose ((processChunk ("\x7b\"a\":1\x7d" : String).data).2 ++
        ("\x7b\"x\":" : String).data) s₀ = none) ∧
    parseJsonStream [("\x7b\"a\":1\x7d" : String) ++ "\x7b\"x\":"] =
      parseJsonStream ["\x7b\"a\":1\x7d"] := by
  have hres : processChunk ("\x7b\"a\":1\x7d" : String).data =
      ([Json.obj [("a", Json.num "1")]], []) := by
    rw [processChunk_brace_some
      (show findBrace ("\x7b\"a\":1\x7d" : String).data 0 = some 0 from rfl)]
    rw [scanLoop_succ_none
      (show findClose ("\x7b\"a\":1\x7d" : String).data 0 = some 6 from rfl)
      (show parseJsonChars (subseg ("\x7b\"a\":1\x7d" : String).data 0 6) =
        some (Json.obj [("a", Json.num "1")]) from rfl)
      (show findBrace (("\x7b\"a\":1\x7d" : String).data.drop 7) 0 = none from rfl)]
    rfl
  have hv : ∀ s₀, findBrace ((processChunk ("\x7b\"a\":1\x7d" : String).data).2 ++
      ("\x7b\"x\":" : String).data) 0 = some s₀ →
    findClose ((processChunk ("\x7b\"a\":1\x7d" : String).data).2 ++
      ("\x7b\"x\":" : String).data) s₀ = none := by
    intro s₀ h
    simp only [hres, List.nil_append] at h ⊢
    rw [show findBrace ("\x7b\"x\":" : String).data 0 = some 0 from rfl] at h
    cases h
    rfl
  exact ⟨hv, parseJsonStream_drops_incomplete_tail _ _ hv⟩

/-!  ## Claims C3, C4: frame and invariant properties of the operations -/

/-- `mapWithIdxFrom` preserves length. -/
theorem length_mapWithIdxFrom {α β : Type _} (f : Nat → α → β) :
    ∀ (i : Nat) (l : List α), (mapWithIdxFrom f i l).length = l.length := by
  intro i l
  induction l generalizing i with
  | nil => rfl
  | cons a rest ih => simp [mapWithIdxFrom, ih]

/-- Members of `mapWithIdxFrom` come from members of the list. -/
theorem mem_mapWithIdxFrom {α β : Type _} {f : Nat → α → β} :
    ∀ (i : Nat) (l : List α) (b : β), b ∈ mapWithIdxFrom f i l → ∃ j a, a ∈ l ∧ b = f j a := by
  intro i l
  induction l generalizing i with
  | nil => intro b h; simp [mapWithIdxFrom] at h
  | cons a rest ih =>
    intro b h
    simp only [mapWithIdxFrom, List.mem_cons] at h
    rcases h with h | h
    · exact ⟨i, a, List.mem_cons_self a rest, h⟩
    · rcases ih (i + 1) b h with ⟨j, a', ha', rfl⟩
      exact ⟨j, a', List.mem_cons_of_mem _ ha', rfl⟩

/-- Each single operation either leaves the history untouched or performs
exactly one `pushToHistory` of the pre-operation live state: the `past`
stack is only ever extended at its end, and the `future` stack is either
untouched or cleared. -/
theorem applyOp_history_step (st : FullState) (op : Op) :
    ((applyOp st op).history.past = st.history.past ∨
      (applyOp st op).history.past = st.history.past ++
        [{ sessions := st.sessions, currentSessionIndex := st.currentSessionIndex }]) ∧
    ((applyOp st op).history.future = st.history.future ∨
      (applyOp st op).history.future = []) := by
  cases op with
  | streamUpdate sessionId artifactId h => exact ⟨Or.inl rfl, Or.inl rfl⟩
  | finalize sessionId artifactId h => exact ⟨Or.inl rfl, Or.inl rfl⟩
  | errorFinalize sessionId artifactId msg => exact ⟨Or.inl rfl, Or.inl rfl⟩
  | setStyles sessionId names => exact ⟨Or.inl rfl, Or.inl rfl⟩
  | applyVar h =>
    cases hf : st.focusedArtifactIndex with
    | none => simp [applyOp, hf, pushToHistory]
    | some j => simp [applyOp, hf, pushToHistory]
  | genImages h changed =>
    by_cases hg : st.currentSessionIndex < 0 ∨ (st.sessions.length : Int) ≤ st.currentSessionIndex
    · simp [applyOp, hg]
    · cases hf : st.focusedArtifactIndex with
      | none => simp [applyOp, hg, hf]
      | some j =>
        cases changed with
        | false => simp [applyOp, hg, hf, pushToHistory]
        | true => simp [applyOp, hg, hf, pushToHistory]
  | submit sessionId prompt timestamp =>
    simp [applyOp, submitPrompt, pushToHistory]

/-- Past snapshots only accumulate across an operation sequence. -/
theorem applyOps_past_extends (ops : List Op) (st : FullState) :
    (∃ ext, (applyOps ops st).history.past = st.history.past ++ ext) ∧
    ((applyOps ops st).history.future = st.history.future ∨
      (applyOps ops st).history.future = []) := by
  induction ops generalizing st with
  | nil => exact ⟨⟨[], by simp [applyOps]⟩, Or.inl rfl⟩
  | cons op rest ih =>
    have hshow : applyOps (op :: rest) st = applyOps rest (applyOp st op) := rfl
    rcases applyOp_history_step st op with ⟨hpast, hfut⟩
    rcases ih (applyOp st op) with ⟨⟨ext, hext⟩, hfut2⟩
    constructor
    · rcases hpast with hp | hp
      · exact ⟨ext, by rw [hshow, hext, hp]⟩
      · exact ⟨[{ sessions := st.sessions, currentSessionIndex := st.currentSessionIndex }] ++ ext,
          by rw [hshow, hext, hp, List.append_assoc]⟩
    · rcases hfut2 with hf2 | hf2
      · rcases hfut with hf | hf
        · exact Or.inl (by rw [hshow, hf2, hf])
        · exact Or.inr (by rw [hshow, hf2, hf])
      · exact Or.inr (by rw [hshow, hf2])

/-- C3: history snapshots are immutable — after any sequence of
state-mutating operations performed after a push (streaming html updates,
finalization, style-name rewrites, applying a variation, image generation,
new submissions), every entry that existed on the `past` stack is still
present, at its index, with its exact `sessions` and `currentSessionIndex`;
and the `future` stack is either exactly as before or cleared by a new
recording — no operation ever rewrites a stored snapshot. -/
theorem history_snapshots_immutable (ops : List Op) (st : FullState) :
    (∀ i : Nat, i < st.history.past.length →
      (applyOps ops st).history.past.get? i = st.history.past.get? i) ∧
    ((applyOps ops st).history.future = st.history.future ∨
      (applyOps ops st).history.future = []) := by
  rcases applyOps_past_extends ops st with ⟨⟨ext, hext⟩, hfut⟩
  refine ⟨fun i hi => ?_, hfut⟩
  rw [hext, List.get?_append hi]

/-- Witness for C3: a concrete sequence (submit, then stream, style and
variation updates) leaves the pre-existing snapshot at index 0 unchanged. -/
theorem history_snapshots_immutable_witness :
    (0 < (baseState [emptyAppSnapshot] []).history.past.length ∧
      (applyOps [Op.submit "s1" "p" 0, Op.streamUpdate "s1" "s1_0" "<p>x</p>",
          Op.setStyles "s1" ["a", "b", "c"], Op.finalize "s1" "s1_0" "<p>x</p>"]
        (baseState [emptyAppSnapshot] [])).history.past.get? 0 =
        (baseState [emptyAppSnapshot] []).history.past.get? 0) ∧
    ((applyOps [Op.submit "s1" "p" 0, Op.streamUpdate "s1" "s1_0" "<p>x</p>",
        Op.setStyles "s1" ["a", "b", "c"], Op.finalize "s1" "s1_0" "<p>x</p>"]
      (baseState [emptyAppSnapshot] [])).history.future =
        (baseState [emptyAppSnapshot] []).history.future ∨
      (applyOps [Op.submit "s1" "p" 0, Op.streamUpdate "s1" "s1_0" "<p>x</p>",
        Op.setStyles "s1" ["a", "b", "c"], Op.finalize "s1" "s1_0" "<p>x</p>"]
      (baseState [emptyAppSnapshot] [])).history.future = []) :=
  ⟨⟨by decide,
    (history_snapshots_immutable _ (baseState [emptyAppSnapshot] [])).1 0 (by decide)⟩,
   (history_snapshots_immutable _ (baseState [emptyAppSnapshot] [])).2⟩

/-- A single operation preserves the 3-artifact shape of every session. -/
theorem applyOp_three_artifacts (st : FullState) (op : Op)
    (h : ∀ s ∈ st.sessions, s.artifacts.length = 3) :
    ∀ s ∈ (applyOp st op).sessions, s.artifacts.length = 3 := by
  cases op with
  | streamUpdate sessionId artifactId html =>
    intro s hs
    simp only [applyOp, mapSessionArtifacts, List.mem_map] at hs
    rcases hs with ⟨sess, hsess, rfl⟩
    split <;> simp [h sess hsess]
  | finalize sessionId artifactId html =>
    intro s hs
    simp only [applyOp, mapSessionArtifacts, List.mem_map] at hs
    rcases hs with ⟨sess, hsess, rfl⟩
    split <;> simp [h sess hsess]
  | errorFinalize sessionId artifactId msg =>
    intro s hs
    simp only [applyOp, mapSessionArtifacts, List.mem_map] at hs
    rcases hs with ⟨sess, hsess, rfl⟩
    split <;> simp [h sess hsess]
  | setStyles sessionId names =>
    intro s hs
    simp only [applyOp, List.mem_map] at hs
    rcases hs with ⟨sess, hsess, rfl⟩
    split <;> simp [mapWithIdx, length_mapWithIdxFrom, h sess hsess]
  | applyVar html =>
    cases hf : st.focusedArtifactIndex with
    | none =>
      intro s hs
      simp only [applyOp, hf, pushToHistory] at hs
      exact h s hs
    | some j =>
      intro s hs
      simp only [applyOp, hf, pushToHistory, mapWithIdx] at hs
      rcases mem_mapWithIdxFrom _ _ _ hs with ⟨k, sess, hsess, rfl⟩
      split <;> simp [mapWithIdx, length_mapWithIdxFrom, h sess hsess]
  | genImages html changed =>
    by_cases hg : st.currentSessionIndex < 0 ∨ (st.sessions.length : Int) ≤ st.currentSessionIndex
    · intro s hs
      simp only [applyOp, hg, if_true] at hs
      exact h s hs
    · cases hf : st.focusedArtifactIndex with
      | none =>
        intro s hs
        simp only [applyOp, hg, hf, if_neg] at hs
        exact h s hs
      | some j =>
        cases changed with
        | false =>
          intro s hs
          simp only [applyOp, hg, hf, pushToHistory] at hs
          exact h s hs
        | true =>
          intro s hs
          simp only [applyOp, hg, hf, pushToHistory, mapWithIdx] at hs
          rcases mem_mapWithIdxFrom _ _ _ hs with ⟨k, sess, hsess, rfl⟩
          split <;> simp [mapWithIdx, length_mapWithIdxFrom, h sess hsess]
  | submit sessionId prompt timestamp =>
    intro s hs
    simp only [applyOp, submitPrompt, pushToHistory, List.mem_append, List.mem_singleton] at hs
    rcases hs with hs | rfl
    · exact h s hs
    · simp [newSession]

/-- C4: every session has exactly 3 artifacts, from its creation on submit
through every later operation (style-name rewrite, streaming html updates,
completion/error finalization, applying a variation, image generation, and
further submissions): if every existing session has 3 artifacts, then after
any sequence of operations every session still has exactly 3 artifacts. -/
theorem session_always_three_artifacts (ops : List Op) (st : FullState)
    (h : ∀ s ∈ st.sessions, s.artifacts.length = 3) :
    ∀ s ∈ (applyOps ops st).sessions, s.artifacts.length = 3 := by
  induction ops generalizing st with
  | nil => exact h
  | cons op rest ih => exact ih (applyOp st op) (applyOp_three_artifacts st op h)

/-!  ## Claim C6: fault isolation of the three body-generation tasks -/

/-- Two successful finalizations on distinct artifact ids commute. -/
theorem finalize_finalize_comm (aid₁ aid₂ h₁ h₂ : String) (hne : aid₁ ≠ aid₂) (a : Artifact) :
    finalizeArt aid₂ h₂ (finalizeArt aid₁ h₁ a) = finalizeArt aid₁ h₁ (finalizeArt aid₂ h₂ a) := by
  unfold finalizeArt
  by_cases k₁ : a.id = aid₁ <;> by_cases k₂ : a.id = aid₂
  · exact absurd (k₁.symm.trans k₂) hne
  · simp [k₁, k₂, hne, hne.symm]
  · simp [k₁, k₂, hne, hne.symm]
  · simp [k₁, k₂, hne, hne.symm]

/-- A successful finalization and a failure conversion on distinct artifact
ids commute. -/
theorem finalize_err_comm (aid₁ aid₂ h msg : String) (hne : aid₁ ≠ aid₂) (a : Artifact) :
    errFinalizeArt aid₂ msg (finalizeArt aid₁ h a) =
      finalizeArt aid₁ h (errFinalizeArt aid₂ msg a) := by
  unfold finalizeArt errFinalizeArt
  by_cases k₁ : a.id = aid₁ <;> by_cases k₂ : a.id = aid₂
  · exact absurd (k₁.symm.trans k₂) hne
  · simp [k₁, k₂, hne, hne.symm]
  · simp [k₁, k₂, hne, hne.symm]
  · simp [k₁, k₂, hne, hne.symm]

/-- Two failure conversions on distinct artifact ids commute. -/
theorem err_err_comm (aid₁ aid₂ m₁ m₂ : String) (hne : aid₁ ≠ aid₂) (a : Artifact) :
    errFinalizeArt aid₂ m₂ (errFinalizeArt aid₁ m₁ a) =
      errFinalizeArt aid₁ m₁ (errFinalizeArt aid₂ m₂ a) := by
  unfold errFinalizeArt
  by_cases k₁ : a.id = aid₁ <;> by_cases k₂ : a.id = aid₂
  · exact absurd (k₁.symm.trans k₂) hne
  · simp [k₁, k₂, hne, hne.symm]
  · simp [k₁, k₂, hne, hne.symm]
  · simp [k₁, k₂, hne, hne.symm]

/-- `mapSessionArtifacts` applications with pointwise-commuting artifact
updates commute. -/
theorem mapSA_comm (sid : String) (f g : Artifact → Artifact)
    (hcomm : ∀ a, g (f a) = f (g a)) (ss : List Session) :
    mapSessionArtifacts sid g (mapSessionArtifacts sid f ss) =
      mapSessionArtifacts sid f (mapSessionArtifacts sid g ss) := by
  induction ss with
  | nil => rfl
  | cons sess rest ih =>
    simp only [mapSessionArtifacts, List.map_cons] at ih ⊢
    congr 1
    by_cases hs : sess.id = sid
    · simp [hs, List.map_map, Function.comp, hcomm]
    · simp [hs]

/-- Applying a task's terminal write is a session-keyed artifact map. -/
theorem applyOp_taskOp (st : FullState) (sid : String) (arts : Fin 3 → Artifact)
    (w : Fin 3) (good : Fin 3 → String) (msg : String) (m : Fin 3) :
    applyOp st (taskOp sid arts w good msg m) =
      { st with sessions :=
          mapSessionArtifacts sid (taskArtFn arts w good msg m) st.sessions } := by
  unfold taskOp taskArtFn
  by_cases h : m = w <;> simp [h, applyOp]

/-- Terminal writes of distinct tasks commute (their target ids differ). -/
theorem taskOp_comm (st : FullState) (sid : String) (arts : Fin 3 → Artifact)
    (w : Fin 3) (good : Fin 3 → String) (msg : String)
    (hdist : ∀ m m', m ≠ m' → (arts m).id ≠ (arts m').id) (m m' : Fin 3) :
    applyOp (applyOp st (taskOp sid arts w good msg m)) (taskOp sid arts w good msg m') =
      applyOp (applyOp st (taskOp sid arts w good msg m')) (taskOp sid arts w good msg m) := by
  by_cases hmm : m = m'
  · rw [hmm]
  · have hne := hdist m m' hmm
    rw [applyOp_taskOp, applyOp_taskOp, applyOp_taskOp, applyOp_taskOp]
    simp only []
    congr 1
    unfold taskArtFn
    by_cases hw : m = w <;> by_cases hw' : m' = w
    · exact absurd (hw.trans hw'.symm) hmm
    · rw [if_pos hw, if_neg hw']
      exact mapSA_comm sid (errFinalizeArt (arts m).id msg) (finalizeArt (arts m').id (good m'))
        (fun a => (finalize_err_comm (arts m').id (arts m).id (good m') msg hne.symm a).symm)
        st.sessions
    · rw [if_neg hw, if_pos hw']
      exact mapSA_comm sid (finalizeArt (arts m).id (good m)) (errFinalizeArt (arts m').id msg)
        (fun a => finalize_err_comm (arts m).id (arts m').id (good m) msg hne a) st.sessions
    · rw [if_neg hw, if_neg hw']
      exact mapSA_comm sid (finalizeArt (arts m).id (good m)) (finalizeArt (arts m').id (good m'))
        (fun a => finalize_finalize_comm (arts m).id (arts m').id (good m) (good m') hne a)
        st.sessions

/-- `get?` through a session-keyed artifact map. -/
theorem mapSA_get (sid : String) (f : Artifact → Artifact) (ss : List Session) (n : Nat) :
    (mapSessionArtifacts sid f ss).get? n =
      (ss.get? n).map (fun sess =>
        if sess.id = sid then { sess with artifacts := sess.artifacts.map f } else sess) := by
  unfold mapSessionArtifacts
  exact List.get?_map _ _ _

/-- A task's terminal write leaves artifacts with other ids unchanged. -/
theorem taskArtFn_skip (arts : Fin 3 → Artifact) (w : Fin 3) (good : Fin 3 → String)
    (msg : String) (m : Fin 3) (a : Artifact) (h : a.id ≠ (arts m).id) :
    taskArtFn arts w good msg m a = a := by
  unfold taskArtFn
  split <;> simp [errFinalizeArt, finalizeArt, h]

/-- A task's terminal write turns its own artifact into the final value. -/
theorem taskArtFn_self (arts : Fin 3 → Artifact) (w : Fin 3) (good : Fin 3 → String)
    (msg : String) (m : Fin 3) (hg : m ≠ w → good m ≠ "") :
    taskArtFn arts w good msg m (arts m) = taskResultArt arts w good msg m := by
  unfold taskArtFn taskResultArt
  by_cases h : m = w
  · simp [h, errFinalizeArt]
  · simp [h, finalizeArt, hg h]

/-- The id of a task's final artifact value. -/
theorem taskResultArt_id (arts : Fin 3 → Artifact) (w : Fin 3) (good : Fin 3 → String)
    (msg : String) (m : Fin 3) :
    (taskResultArt arts w good msg m).id = (arts m).id := by
  unfold taskResultArt
  split <;> rfl

/-- The status of a task's final artifact value. -/
theorem taskResultArt_status (arts : Fin 3 → Artifact) (w : Fin 3) (good : Fin 3 → String)
    (msg : String) (m : Fin 3) :
    (taskResultArt arts w good msg m).status =
      if m = w then ArtifactStatus.error else ArtifactStatus.complete := by
  unfold taskResultArt
  split <;> rfl

/-- Evaluating the three terminal writes on the `k`-th artifact. -/
theorem taskChain_eval (arts : Fin 3 → Artifact) (w : Fin 3) (good : Fin 3 → String)
    (msg : String) (hdist : ∀ m m', m ≠ m' → (arts m).id ≠ (arts m').id)
    (hgood : ∀ m, m ≠ w → good m ≠ "") (k : Fin 3) :
    taskArtFn arts w good msg 2 (taskArtFn arts w good msg 1
      (taskArtFn arts w good msg 0 (arts k))) = taskResultArt arts w good msg k := by
  by_cases h0 : k = 0
  · subst h0
    rw [taskArtFn_self arts w good msg 0 (hgood 0)]
    rw [taskArtFn_skip arts w good msg 1 _
      (by rw [taskResultArt_id]; exact hdist 0 1 (by decide))]
    rw [taskArtFn_skip arts w good msg 2 _
      (by rw [taskResultArt_id]; exact hdist 0 2 (by decide))]
  · by_cases h1 : k = 1
    · subst h1
      rw [taskArtFn_skip arts w good msg 0 _ (hdist 1 0 (by decide))]
      rw [taskArtFn_self arts w good msg 1 (hgood 1)]
      rw [taskArtFn_skip arts w good msg 2 _
        (by rw [taskResultArt_id]; exact hdist 1 2 (by decide))]
    · by_cases h2 : k = 2
      · subst h2
        rw [taskArtFn_skip arts w good msg 0 _ (hdist 2 0 (by decide))]
        rw [taskArtFn_skip arts w good msg 1 _ (hdist 2 1 (by decide))]
        rw [taskArtFn_self arts w good msg 2 (hgood 2)]
      · exfalso
        have hv := k.isLt
        have v0 : k.val ≠ 0 := fun h => h0 (Fin.ext h)
        have v1 : k.val ≠ 1 := fun h => h1 (Fin.ext h)
        have v2 : k.val ≠ 2 := fun h => h2 (Fin.ext h)
        omega

/-- C6: if exactly one of the 3 body-generation tasks throws while the other
two complete with non-empty output, then — in whatever order the three
terminal writes land — the session ends with 2 artifacts in `complete`
status and 1 artifact in `error` status whose html is the inline error
message; each surviving artifact's html and status are exactly its own
task's result, and a failing task's write leaves every artifact with a
different id unchanged. -/
theorem single_failure_isolated (st : FullState) (sid : String) (arts : Fin 3 → Artifact)
    (w : Fin 3) (good : Fin 3 → String) (msg : String) (n : Nat) (sess : Session)
    (ops : List Op)
    (hget : st.sessions.get? n = some sess)
    (hid : sess.id = sid)
    (harts : sess.artifacts = [arts 0, arts 1, arts 2])
    (hdist : ∀ m m', m ≠ m' → (arts m).id ≠ (arts m').id)
    (hgood : ∀ m, m ≠ w → good m ≠ "")
    (hperm : ops.Perm [taskOp sid arts w good msg 0, taskOp sid arts w good msg 1,
      taskOp sid arts w good msg 2]) :
    ((applyOps ops st).sessions.get? n = some
      { sess with artifacts := [taskResultArt arts w good msg 0,
          taskResultArt arts w good msg 1, taskResultArt arts w good msg 2] } ∧
     ([taskResultArt arts w good msg 0, taskResultArt arts w good msg 1,
        taskResultArt arts w good msg 2].filter
          (fun a => decide (a.status = ArtifactStatus.complete))).length = 2 ∧
     ([taskResultArt arts w good msg 0, taskResultArt arts w good msg 1,
        taskResultArt arts w good msg 2].filter
          (fun a => decide (a.status = ArtifactStatus.error))).length = 1 ∧
     (taskResultArt arts w good msg w).html = errorHtml msg ∧
     (taskResultArt arts w good msg w).status = ArtifactStatus.error ∧
     (∀ m, m ≠ w → (taskResultArt arts w good msg m).html = good m ∧
        (taskResultArt arts w good msg m).status = ArtifactStatus.complete)) ∧
    (∀ (aid emsg : String) (a : Artifact), a.id ≠ aid → errFinalizeArt aid emsg a = a) := by
  have hfold : applyOps ops st = applyOps [taskOp sid arts w good msg 0,
      taskOp sid arts w good msg 1, taskOp sid arts w good msg 2] st := by
    unfold applyOps
    refine hperm.foldl_eq' ?_ st
    intro x hx y hy z
    have hx' := hperm.mem_iff.mp hx
    have hy' := hperm.mem_iff.mp hy
    simp only [List.mem_cons, List.not_mem_nil, or_false] at hx' hy'
    rcases hx' with rfl | rfl | rfl <;> rcases hy' with rfl | rfl | rfl <;>
      exact taskOp_comm z sid arts w good msg hdist _ _
  have hchain := taskChain_eval arts w good msg hdist hgood
  have hmain : (applyOps ops st).sessions.get? n = some
      { sess with artifacts := [taskResultArt arts w good msg 0,
        taskResultArt arts w good msg 1, taskResultArt arts w good msg 2] } := by
    rw [hfold]
    show (applyOp (applyOp (applyOp st (taskOp sid arts w good msg 0))
      (taskOp sid arts w good msg 1)) (taskOp sid arts w good msg 2)).sessions.get? n = _
    rw [applyOp_taskOp, applyOp_taskOp, applyOp_taskOp]
    simp only [mapSA_get, hget, Option.map_some']
    simp [hid, harts, hchain]
  have hw3 : w = 0 ∨ w = 1 ∨ w = 2 := by
    have hv := w.isLt
    by_cases e0 : w = 0
    · exact Or.inl e0
    · by_cases e1 : w = 1
      · exact Or.inr (Or.inl e1)
      · by_cases e2 : w = 2
        · exact Or.inr (Or.inr e2)
        · exfalso
          have v0 : w.val ≠ 0 := fun h => e0 (Fin.ext h)
          have v1 : w.val ≠ 1 := fun h => e1 (Fin.ext h)
          have v2 : w.val ≠ 2 := fun h => e2 (Fin.ext h)
          omega
  have h0 := taskResultArt_status arts w good msg 0
  have h1 := taskResultArt_status arts w good msg 1
  have h2 := taskResultArt_status arts w good msg 2
  refine ⟨⟨hmain, ?_, ?_, ?_, ?_, ?_⟩, ?_⟩
  · rcases hw3 with rfl | rfl | rfl <;>
      simp only [if_pos, if_neg, show ((0 : Fin 3) = 0) = True by simp,
        show ((1 : Fin 3) = 0) = False by simp [Fin.ext_iff],
        show ((2 : Fin 3) = 0) = False by simp [Fin.ext_iff],
        show ((0 : Fin 3) = 1) = False by simp [Fin.ext_iff],
        show ((1 : Fin 3) = 1) = True by simp,
        show ((2 : Fin 3) = 1) = False by simp [Fin.ext_iff],
        show ((0 : Fin 3) = 2) = False by simp [Fin.ext_iff],
        show ((1 : Fin 3) = 2) = False by simp [Fin.ext_iff],
        show ((2 : Fin 3) = 2) = True by simp, ite_true, ite_false] at h0 h1 h2 <;>
      simp [List.filter, h0, h1, h2]
  · rcases hw3 with rfl | rfl | rfl <;>
      simp only [if_pos, if_neg, show ((0 : Fin 3) = 0) = True by simp,
        show ((1 : Fin 3) = 0) = False by simp [Fin.ext_iff],
        show ((2 : Fin 3) = 0) = False by simp [Fin.ext_iff],
        show ((0 : Fin 3) = 1) = False by simp [Fin.ext_iff],
        show ((1 : Fin 3) = 1) = True by simp,
        show ((2 : Fin 3) = 1) = False by simp [Fin.ext_iff],
        show ((0 : Fin 3) = 2) = False by simp [Fin.ext_iff],
        show ((1 : Fin 3) = 2) = False by simp [Fin.ext_iff],
        show ((2 : Fin 3) = 2) = True by simp, ite_true, ite_false] at h0 h1 h2 <;>
      simp [List.filter, h0, h1, h2]
  · unfold taskResultArt
    rw [if_pos rfl]
  · unfold taskResultArt
    rw [if_pos rfl]
  · intro m hm
    unfold taskResultArt
    rw [if_neg hm]
    exact ⟨rfl, rfl⟩
  · intro aid emsg a h
    simp [errFinalizeArt, h]

/-- Witness for C6: in session `s1`, task 1 fails with message `boom` while
tasks 0 and 2 succeed, the writes landing in the order 1, 0, 2. -/
theorem single_failure_isolated_witness :
    (submitPrompt "s1" "p" 0 (baseState [] [])).sessions.get? 0 =
      some (newSession "s1" "p" 0) ∧
    (applyOps [taskOp "s1" wArts 1 wGood "boom" 1, taskOp "s1" wArts 1 wGood "boom" 0,
        taskOp "s1" wArts 1 wGood "boom" 2]
      (submitPrompt "s1" "p" 0 (baseState [] []))).sessions.get? 0 =
      some { newSession "s1" "p" 0 with artifacts := [taskResultArt wArts 1 wGood "boom" 0,
          taskResultArt wArts 1 wGood "boom" 1, taskResultArt wArts 1 wGood "boom" 2] } :=
  ⟨rfl,
   (single_failure_isolated (submitPrompt "s1" "p" 0 (baseState [] [])) "s1" wArts 1 wGood
      "boom" 0 (newSession "s1" "p" 0)
      [taskOp "s1" wArts 1 wGood "boom" 1, taskOp "s1" wArts 1 wGood "boom" 0,
        taskOp "s1" wArts 1 wGood "boom" 2]
      rfl rfl (by decide) (by decide) (by decide) (by decide)).1.1⟩

/-- Witness for C4: starting from the empty state, a submission followed by
style, stream, error and variation updates leaves every session with
exactly 3 artifacts. -/
theorem session_always_three_artifacts_witness :
    (∀ s ∈ (baseState [] []).sessions, s.artifacts.length = 3) ∧
    (∀ s ∈ (applyOps [Op.submit "s1" "p" 0, Op.setStyles "s1" ["a", "b", "c"],
        Op.streamUpdate "s1" "s1_1" "<p>y</p>", Op.errorFinalize "s1" "s1_2" "boom",
        Op.finalize "s1" "s1_1" "<p>y</p>"] (baseState [] [])).sessions,
      s.artifacts.length = 3) :=
  ⟨by intro s hs; simp [baseState] at hs,
   session_always_three_artifacts _ (baseState [] [])
     (by intro s hs; simp [baseState] at hs)⟩

end SparkUI
